import Mathlib

set_option maxHeartbeats 1000000
set_option autoImplicit false

/-
Verification of the resource-readiness polling providers of this repository:
the Lambda-ENI coverage wait (`LambdaEniWaitProvider.create` in
`src/utils/eip-waiting.ts`) and the EFS mount-target all-match wait
(`WaitForEfsProvider.create`).  Machine integers do not occur; times are
modelled in milliseconds as `Nat`, and each loop iteration advances the
clock by one poll interval.  A probe is one call of the describe API and
may fail, which is modelled with `Except`.
-/

/-- One network interface of a `DescribeNetworkInterfaces` response.
Both fields are optional in the AWS SDK types, matching `ni.SubnetId` and
`ni.NetworkInterfaceId` being possibly undefined. -/
structure Eni where
  SubnetId : Option String
  NetworkInterfaceId : Option String
  deriving DecidableEq, Repr

/-- A `DescribeNetworkInterfaces` response; `NetworkInterfaces` may be absent,
matching `resp.NetworkInterfaces || []`. -/
structure EniResp where
  NetworkInterfaces : Option (List Eni)
  deriving DecidableEq, Repr

/-- The guard `if (ni.SubnetId && ni.NetworkInterfaceId)` of the source:
both fields must be present and non-empty (JavaScript string truthiness),
in which case the pair (subnet, interface id) is produced. -/
def eniValid (ni : Eni) : Option (String × String) :=
  match ni.SubnetId, ni.NetworkInterfaceId with
  | some s, some i => if s ≠ "" ∧ i ≠ "" then some (s, i) else none
  | _, _ => none

/-- The subnet key contributed by one response entry, if any. -/
def eniKeyOf (ni : Eni) : Option String :=
  (eniValid ni).map Prod.fst

/-- The interface id contributed for subnet `s` by one response entry, if any. -/
def eniMatch (s : String) (ni : Eni) : Option String :=
  match eniValid ni with
  | some (s1, i) => if s1 = s then some i else none
  | none => none

/-- The loop `for (const ni of enis) { ... objEnis.set(...) }` of the source:
an insertion-ordered map, represented as an association list to which a
key is appended only when not already present (`!objEnis.has(ni.SubnetId)`). -/
def objEnisAux : List (String × String) → List Eni → List (String × String)
  | acc, [] => acc
  | acc, ni :: rest =>
    match eniValid ni with
    | some (s, i) =>
      if s ∈ acc.map Prod.fst then objEnisAux acc rest
      else objEnisAux (acc ++ [(s, i)]) rest
    | none => objEnisAux acc rest

/-- `const enis = resp.NetworkInterfaces || []`. -/
def enisOf (resp : EniResp) : List Eni :=
  resp.NetworkInterfaces.getD []

/-- The `objEnis` map built from one probe response, as an insertion-ordered
association list. -/
def objEnisOf (resp : EniResp) : List (String × String) :=
  objEnisAux [] (enisOf resp)

/-- JavaScript `Array.prototype.join(sep)` on strings. -/
def joinStr (sep : String) : List String → String
  | [] => ""
  | [s] => s
  | s :: rest => s ++ sep ++ joinStr sep rest

/-- JavaScript `Array.prototype.join` at the character-list level, used for
the comma-joined resource id. -/
def joinChars (sep : Char) : List (List Char) → List Char
  | [] => []
  | [s] => s
  | s :: rest => s ++ sep :: joinChars sep rest

/-- The dynamic-resource id `[...objEnis.values()].join(',')`. -/
def eniResourceId (ids : List String) : String :=
  String.mk (joinChars ',' (ids.map String.data))

/-- The `subnet:interfaceId` progress rendering
`[...objEnis.entries()].map(([s, id]) => s + ":" + id).join(', ')`. -/
def eniEntriesSummary (obj : List (String × String)) : String :=
  joinStr ", " (obj.map fun p => p.1 ++ ":" ++ p.2)

/-- The text of the ENI timeout error thrown by the source. -/
def eniTimeoutMsg (obj : List (String × String)) (expected : Nat) : String :=
  "Timeout waiting for Lambda ENIs. Found " ++ toString obj.length ++ "/" ++
    toString expected ++ ". Current: " ++ eniEntriesSummary obj

/-- Outcome of one ENI loop iteration after the probe returned. -/
inductive EniStep where
  | success (id : String) (eniIds : List String)
  | timedOut (msg : String)
  | again
  deriving DecidableEq, Repr

/-- One iteration body of the ENI wait loop: build `objEnis`, return when
`objEnis.size >= expected`, throw when `Date.now() > expiredAt`, else poll
again.  `now` and `expiredAt` are absolute times in ms. -/
def eniStep (expected now expiredAt : Nat) (resp : EniResp) : EniStep :=
  let objEnis := objEnisOf resp
  if objEnis.length ≥ expected then
    .success (eniResourceId (objEnis.map Prod.snd)) (objEnis.map Prod.snd)
  else if now > expiredAt then
    .timedOut (eniTimeoutMsg objEnis expected)
  else .again

/-- Terminal outcome of an ENI reconciliation run.  `probes` counts describe
calls issued, `elapsed` is time since run start in ms (each iteration is
polled at `i * pollMs`).  `ranOut` marks exhaustion of the supplied probe
trace, never reached by the theorems below. -/
inductive EniOutcome where
  | ok (id : String) (eniIds : List String) (probes elapsed : Nat)
  | timedOut (msg : String) (probes elapsed : Nat)
  | probeFailed (e : String) (probes elapsed : Nat)
  | ranOut
  deriving DecidableEq, Repr

/-- The `while (true)` loop of `LambdaEniWaitProvider.create`, driven by a
finite trace of probe results; iteration `i` runs at time `i * pollMs`
against deadline `timeoutMs` (the code records
`expiredAt = Date.now() + timeoutSeconds * 1000` at start). -/
def eniRunAux (expected timeoutMs pollMs : Nat) :
    Nat → List (Except String EniResp) → EniOutcome
  | _, [] => .ranOut
  | i, r :: rest =>
    match r with
    | .error e => .probeFailed e (i + 1) (i * pollMs)
    | .ok resp =>
      match eniStep expected (i * pollMs) timeoutMs resp with
      | .success id ids => .ok id ids (i + 1) (i * pollMs)
      | .timedOut m => .timedOut m (i + 1) (i * pollMs)
      | .again => eniRunAux expected timeoutMs pollMs (i + 1) rest

/-- `LambdaEniWaitProvider.create` with the source constants
`timeoutSeconds = 300`, `pollSeconds = 5` and
`expected = subnetIds.length`. -/
def eniRun (subnetIds : List String) (probes : List (Except String EniResp)) :
    EniOutcome :=
  eniRunAux subnetIds.length 300000 5000 0 probes

/-- JavaScript `String.prototype.split(sep)` for a one-character separator,
at the character-list level. -/
def jsSplitChars (sep : Char) : List Char → List (List Char)
  | [] => [[]]
  | c :: rest =>
    if c = sep then [] :: jsSplitChars sep rest
    else
      match jsSplitChars sep rest with
      | [] => [[c]]
      | h :: t => (c :: h) :: t

/-- JavaScript `String.prototype.trim()` at the character-list level. -/
def jsTrimChars (s : List Char) : List Char :=
  ((s.dropWhile Char.isWhitespace).reverse.dropWhile Char.isWhitespace).reverse

/-- The public output of `LambdaEniWait`:
`id.split(',').map((str) => str.trim())`. -/
def publicEniIds (id : String) : List String :=
  (jsSplitChars ',' id.data).map fun cs => String.mk (jsTrimChars cs)

/-- One mount target of a `DescribeMountTargets` response; both fields are
optional in the AWS SDK types. -/
structure MountTarget where
  MountTargetId : Option String
  LifeCycleState : Option String
  deriving DecidableEq, Repr

/-- A `DescribeMountTargets` response; `MountTargets` may be absent, which
the source guards with optional chaining. -/
structure EfsResp where
  MountTargets : Option (List MountTarget)
  deriving DecidableEq, Repr

/-- Rendering of a possibly-absent string in a template literal:
JavaScript prints `undefined`. -/
def optShow : Option String → String
  | none => "undefined"
  | some s => s

/-- `resp.MountTargets?.map((mt) => mtid + ": " + state)` of the source. -/
def efsStates (resp : EfsResp) : Option (List String) :=
  resp.MountTargets.map fun mts =>
    mts.map fun mt => optShow mt.MountTargetId ++ ": " ++ optShow mt.LifeCycleState

/-- `resp.MountTargets?.every((mt) => mt.LifeCycleState === 'available')`,
coerced by `if (allAvailable)`: an absent list is falsy, a present list is
tested with `every` (which is vacuously true on the empty list). -/
def efsAllAvailable (resp : EfsResp) : Bool :=
  match resp.MountTargets with
  | none => false
  | some mts => mts.all fun mt => mt.LifeCycleState == some "available"

/-- The text of the EFS timeout error thrown by the source
(`states?.join(', ')` renders as `undefined` when the list is absent). -/
def efsTimeoutMsg (resp : EfsResp) : String :=
  "⏱️ Timeout: Not all mount targets are available. States: " ++
    match efsStates resp with
    | none => "undefined"
    | some l => joinStr ", " l

/-- Outcome of one EFS loop iteration after the probe returned. -/
inductive EfsStep where
  | satisfied
  | timedOut (msg : String)
  | again
  deriving DecidableEq, Repr

/-- One iteration body of the EFS wait loop: satisfied when all mount
targets are available, timed out when `Date.now() - start > timeout`,
else poll again. -/
def efsStep (timeoutMs start now : Nat) (resp : EfsResp) : EfsStep :=
  if efsAllAvailable resp then .satisfied
  else if now - start > timeoutMs then .timedOut (efsTimeoutMsg resp)
  else .again

/-- Terminal outcome of an EFS reconciliation run; fields as in
`EniOutcome`.  A satisfied run sleeps the stabilization buffer before
returning, so its `elapsed` includes `stabMs`. -/
inductive EfsOutcome where
  | ok (id : String) (probes elapsed : Nat)
  | timedOut (msg : String) (probes elapsed : Nat)
  | probeFailed (e : String) (probes elapsed : Nat)
  | ranOut
  deriving DecidableEq, Repr

/-- The `while (true)` loop of `WaitForEfsProvider.create`, driven by a
finite trace of probe results; the poll interval is the source constant
`10_000` ms, and the returned id is `wait-for-` ++ the filesystem id. -/
def efsRunAux (fsId : String) (timeoutMs stabMs : Nat) :
    Nat → List (Except String EfsResp) → EfsOutcome
  | _, [] => .ranOut
  | i, r :: rest =>
    match r with
    | .error e => .probeFailed e (i + 1) (i * 10000)
    | .ok resp =>
      match efsStep timeoutMs 0 (i * 10000) resp with
      | .satisfied => .ok ("wait-for-" ++ fsId) (i + 1) (i * 10000 + stabMs)
      | .timedOut m => .timedOut m (i + 1) (i * 10000)
      | .again => efsRunAux fsId timeoutMs stabMs (i + 1) rest

/-- `(inputs.timeoutSeconds || 300) * 1000`: JavaScript `||` replaces both
an absent and a zero value by the default. -/
def efsTimeoutMsOf (timeoutSeconds : Option Nat) : Nat :=
  (match timeoutSeconds with
   | none => 300
   | some t => if t = 0 then 300 else t) * 1000

/-- `((inputs.stabilizationSeconds ?? 30)) * 1000`: `??` keeps a present
zero. -/
def efsStabMsOf (stabilizationSeconds : Option Nat) : Nat :=
  stabilizationSeconds.getD 30 * 1000

/-- `WaitForEfsProvider.create` with the input defaulting of the source. -/
def efsRun (fsId : String) (timeoutSeconds stabilizationSeconds : Option Nat)
    (probes : List (Except String EfsResp)) : EfsOutcome :=
  efsRunAux fsId (efsTimeoutMsOf timeoutSeconds) (efsStabMsOf stabilizationSeconds)
    0 probes

/- Helper lemmas about the insertion-ordered `objEnis` association list. -/

theorem lookup_eq_none_of_not_mem_keys (xs : List (String × String)) (s : String)
    (h : s ∉ xs.map Prod.fst) : xs.lookup s = none := by
  induction xs with
  | nil => rfl
  | cons p xs ih =>
    rcases p with ⟨k, v⟩
    simp only [List.map_cons, List.mem_cons, not_or] at h
    have hk : (s == k) = false := by
      simp [h.1]
    simp [List.lookup, hk, ih h.2]

theorem lookup_append (xs ys : List (String × String)) (s : String) :
    (xs ++ ys).lookup s = ((xs.lookup s).orElse fun _ => ys.lookup s) := by
  induction xs with
  | nil => simp [List.lookup]
  | cons p xs ih =>
    rcases p with ⟨k, v⟩
    cases hk : (s == k) with
    | true => simp [List.lookup, hk, Option.orElse]
    | false => simpa [List.lookup, hk] using ih

theorem objEnisAux_append_structure (l : List Eni) :
    ∀ acc : List (String × String), ∃ t,
      objEnisAux acc l = acc ++ t ∧
      List.Sublist (t.map Prod.fst) (l.filterMap eniKeyOf) ∧
      ∀ k ∈ t.map Prod.fst, k ∉ acc.map Prod.fst := by
  induction l with
  | nil =>
    intro acc
    exact ⟨[], by simp [objEnisAux], by simp, by simp⟩
  | cons ni rest ih =>
    intro acc
    simp only [objEnisAux]
    cases hv : eniValid ni with
    | none =>
      obtain ⟨t, h1, h2, h3⟩ := ih acc
      refine ⟨t, h1, ?_, h3⟩
      simpa [List.filterMap_cons, eniKeyOf, hv] using h2
    | some p =>
      rcases p with ⟨s, i⟩
      dsimp only
      have hkey : eniKeyOf ni = some s := by simp [eniKeyOf, hv]
      by_cases hmem : s ∈ acc.map Prod.fst
      · rw [if_pos hmem]
        obtain ⟨t, h1, h2, h3⟩ := ih acc
        refine ⟨t, h1, ?_, h3⟩
        rw [List.filterMap_cons, hkey]
        exact h2.cons s
      · rw [if_neg hmem]
        obtain ⟨t, h1, h2, h3⟩ := ih (acc ++ [(s, i)])
        refine ⟨(s, i) :: t, by rw [h1]; simp, ?_, ?_⟩
        · rw [List.filterMap_cons, hkey]
          exact h2.cons₂ s
        · intro k hk
          simp only [List.map_cons, List.mem_cons] at hk
          rcases hk with hk | hk
          · simpa [hk] using hmem
          · have := h3 k hk
            simp only [List.map_append, List.mem_append] at this
            intro hka
            exact this (Or.inl hka)

theorem objEnisAux_nodup (l : List Eni) :
    ∀ acc : List (String × String), (acc.map Prod.fst).Nodup →
      ((objEnisAux acc l).map Prod.fst).Nodup := by
  induction l with
  | nil => intro acc h; simpa [objEnisAux] using h
  | cons ni rest ih =>
    intro acc h
    simp only [objEnisAux]
    cases hv : eniValid ni with
    | none => exact ih acc h
    | some p =>
      rcases p with ⟨s, i⟩
      dsimp only
      by_cases hmem : s ∈ acc.map Prod.fst
      · rw [if_pos hmem]; exact ih acc h
      · rw [if_neg hmem]
        apply ih
        simp [List.nodup_append, h, hmem]

theorem lookup_isSome_of_mem_keys (xs : List (String × String)) (s : String)
    (h : s ∈ xs.map Prod.fst) : (xs.lookup s).isSome := by
  induction xs with
  | nil => simp at h
  | cons p xs ih =>
    rcases p with ⟨k, v⟩
    by_cases hk : s = k
    · simp [List.lookup, hk]
    · have hbeq : (s == k) = false := by simp [hk]
      simp only [List.map_cons, List.mem_cons] at h
      rcases h with h | h
      · exact absurd h hk
      · simpa [List.lookup, hbeq] using ih h

theorem objEnisAux_lookup_mem (l : List Eni) (acc : List (String × String))
    (s : String) (hs : s ∈ acc.map Prod.fst) :
    (objEnisAux acc l).lookup s = acc.lookup s := by
  obtain ⟨t, h1, h2, h3⟩ := objEnisAux_append_structure l acc
  rw [h1, lookup_append]
  cases hl : acc.lookup s with
  | some v => simp [Option.orElse]
  | none =>
    have := lookup_isSome_of_mem_keys acc s hs
    rw [hl] at this
    simp at this

theorem objEnisAux_lookup_notmem (l : List Eni) :
    ∀ acc : List (String × String), ∀ s : String, s ∉ acc.map Prod.fst →
      (objEnisAux acc l).lookup s = l.findSome? (eniMatch s) := by
  induction l with
  | nil =>
    intro acc s hs
    simp only [objEnisAux, List.findSome?]
    exact lookup_eq_none_of_not_mem_keys acc s hs
  | cons ni rest ih =>
    intro acc s hs
    simp only [objEnisAux]
    cases hv : eniValid ni with
    | none =>
      have hm : eniMatch s ni = none := by simp [eniMatch, hv]
      rw [List.findSome?_cons, hm]
      exact ih acc s hs
    | some p =>
      rcases p with ⟨s1, i⟩
      dsimp only
      by_cases hmem : s1 ∈ acc.map Prod.fst
      · rw [if_pos hmem]
        have hne : s1 ≠ s := by
          intro he; rw [he] at hmem; exact hs hmem
        have hm : eniMatch s ni = none := by simp [eniMatch, hv, hne]
        rw [List.findSome?_cons, hm]
        exact ih acc s hs
      · rw [if_neg hmem]
        by_cases he : s1 = s
        · subst he
          have hm : eniMatch s1 ni = some i := by simp [eniMatch, hv]
          rw [List.findSome?_cons, hm]
          rw [objEnisAux_lookup_mem rest (acc ++ [(s1, i)]) s1 (by simp)]
          rw [lookup_append, lookup_eq_none_of_not_mem_keys acc s1 hs]
          simp [List.lookup, Option.orElse]
        · have hm : eniMatch s ni = none := by simp [eniMatch, hv, he]
          rw [List.findSome?_cons, hm]
          apply ih
          simp only [List.map_append, List.mem_append]
          intro hor
          rcases hor with h | h
          · exact hs h
          · simp at h
            exact he h.symm

/-- C8: in the coverage (ENI) wait the ObservedState map binds each subnet
key to the interface id of the first response entry that carries that
subnet (with both fields present and non-empty); later entries for the
same subnet are silently ignored. -/
theorem c8_first_interface_wins (resp : EniResp) (s : String) :
    (objEnisOf resp).lookup s = (enisOf resp).findSome? (eniMatch s) :=
  objEnisAux_lookup_notmem (enisOf resp) [] s (by simp)

/-- C1 counterexample: the source predicate is
`resp.MountTargets?.every((mt) => mt.LifeCycleState === 'available')`,
and `every` on an empty array is `true`, so the empty ObservedState (a
probe returning zero mount targets) IS satisfied, contradicting the
claim that it is always unsatisfied. -/
theorem c1_counterexample : efsAllAvailable ⟨some []⟩ = true := rfl

/-- C1 amended: whenever the probe response carries a mount-target list,
the all-match predicate is satisfied exactly when every entry has
lifecycle state `available`; in particular the empty list is vacuously
satisfied, and only an absent `MountTargets` field is unsatisfied. -/
theorem c1_allmatch_amended :
    (∀ mts : List MountTarget,
      (efsAllAvailable ⟨some mts⟩ = true ↔
        ∀ mt ∈ mts, mt.LifeCycleState = some "available")) ∧
    efsAllAvailable ⟨none⟩ = false := by
  constructor
  · intro mts
    simp [efsAllAvailable, List.all_eq_true]
  · rfl

/-- C1 amended, witness: a singleton available list is satisfied. -/
theorem c1_allmatch_amended_witness :
    efsAllAvailable ⟨some [⟨some "fsmt-0a1b", some "available"⟩]⟩ = true :=
  (c1_allmatch_amended.1 [⟨some "fsmt-0a1b", some "available"⟩]).mpr
    (by intro mt hmt; simp at hmt; simp [hmt])

/-- C4: one ENI loop iteration produces the success outcome exactly when
the number of distinct subnet keys in the ObservedState map reaches the
expected count (the subnet list length); with strictly fewer keys no
success is produced, regardless of the clock. -/
theorem c4_coverage_threshold (expected now expiredAt : Nat) (resp : EniResp) :
    (∃ id ids, eniStep expected now expiredAt resp = .success id ids) ↔
      expected ≤ ((objEnisOf resp).map Prod.fst).toFinset.card := by
  have hnd : ((objEnisOf resp).map Prod.fst).Nodup :=
    objEnisAux_nodup (enisOf resp) [] (by simp)
  rw [List.toFinset_card_of_nodup hnd, List.length_map]
  constructor
  · rintro ⟨id, ids, hstep⟩
    by_contra hlt
    have hno : ¬ (objEnisOf resp).length ≥ expected := hlt
    simp only [eniStep, if_neg hno] at hstep
    split at hstep <;> exact absurd hstep (by simp)
  · intro hcard
    refine ⟨eniResourceId ((objEnisOf resp).map Prod.snd),
      (objEnisOf resp).map Prod.snd, ?_⟩
    simp [eniStep, hcard]

/-- C5: in both loops one iteration throws the timeout error exactly when
the predicate is unsatisfied and the current time strictly exceeds the
deadline fixed at run start (start + timeout), and the error text embeds
the observed-state summary: found-vs-expected with the subnet:interface
entries for the ENI wait, and each mount-target id with its last-seen
lifecycle state for the EFS wait. -/
theorem c5_timeout_condition :
    (∀ expected start timeoutMs now resp m,
      eniStep expected now (start + timeoutMs) resp = .timedOut m ↔
        ((objEnisOf resp).length < expected ∧ now > start + timeoutMs ∧
         m = "Timeout waiting for Lambda ENIs. Found " ++
             toString (objEnisOf resp).length ++ "/" ++ toString expected ++
             ". Current: " ++
             joinStr ", " ((objEnisOf resp).map fun p => p.1 ++ ":" ++ p.2))) ∧
    (∀ timeoutMs start now resp m,
      efsStep timeoutMs start now resp = .timedOut m ↔
        (efsAllAvailable resp = false ∧ now > start + timeoutMs ∧
         m = "⏱️ Timeout: Not all mount targets are available. States: " ++
             match efsStates resp with
             | none => "undefined"
             | some l => joinStr ", " l)) := by
  constructor
  · intro expected start timeoutMs now resp m
    constructor
    · intro h
      simp only [eniStep] at h
      by_cases h1 : (objEnisOf resp).length ≥ expected
      · rw [if_pos h1] at h
        exact absurd h (by simp)
      · rw [if_neg h1] at h
        by_cases h2 : now > start + timeoutMs
        · rw [if_pos h2] at h
          injection h with hm
          exact ⟨by omega, h2, by rw [← hm]; rfl⟩
        · rw [if_neg h2] at h
          exact absurd h (by simp)
    · rintro ⟨hlt, hgt, hm⟩
      have h1 : ¬ (objEnisOf resp).length ≥ expected := by omega
      simp only [eniStep, if_neg h1, if_pos hgt]
      rw [hm]; rfl
  · intro timeoutMs start now resp m
    constructor
    · intro h
      simp only [efsStep] at h
      by_cases h1 : efsAllAvailable resp = true
      · rw [if_pos h1] at h
        exact absurd h (by simp)
      · rw [if_neg h1] at h
        by_cases h2 : now - start > timeoutMs
        · rw [if_pos h2] at h
          injection h with hm
          refine ⟨by simpa using h1, by omega, by rw [← hm]; rfl⟩
        · rw [if_neg h2] at h
          exact absurd h (by simp)
    · rintro ⟨hfalse, hgt, hm⟩
      have h1 : ¬ efsAllAvailable resp = true := by simp [hfalse]
      have h2 : now - start > timeoutMs := by omega
      simp only [efsStep, if_neg h1, if_pos h2]
      rw [hm]; rfl

/- Prefix lemmas: a run skips over unsatisfying, in-deadline successful
probes, advancing only the iteration counter. -/

theorem eniRunAux_skips (expected timeoutMs pollMs : Nat)
    (resps : List EniResp) :
    ∀ (i : Nat) (l : List (Except String EniResp)),
      (∀ q ∈ resps, (objEnisOf q).length < expected) →
      (∀ j, i ≤ j → j < i + resps.length → j * pollMs ≤ timeoutMs) →
      eniRunAux expected timeoutMs pollMs i (resps.map Except.ok ++ l) =
        eniRunAux expected timeoutMs pollMs (i + resps.length) l := by
  induction resps with
  | nil => intro i l _ _; simp
  | cons q resps ih =>
    intro i l hunsat htime
    have hq : (objEnisOf q).length < expected := hunsat q (by simp)
    have hti : i * pollMs ≤ timeoutMs := by
      refine htime i le_rfl ?_
      simp only [List.length_cons]
      omega
    have hstep : eniStep expected (i * pollMs) timeoutMs q = .again := by
      simp only [eniStep]
      rw [if_neg (by omega), if_neg (by omega)]
    simp only [List.map_cons, List.cons_append, eniRunAux]
    rw [hstep]
    dsimp only
    rw [show (List.map Except.ok resps).append l = List.map Except.ok resps ++ l
        from rfl]
    rw [ih (i + 1) l (fun q hq => hunsat q (by simp [hq]))
        (fun j h1 h2 => by
          refine htime j (by omega) ?_
          simp only [List.length_cons]
          omega)]
    congr 1
    simp only [List.length_cons]
    omega

theorem efsRunAux_skips (fsId : String) (timeoutMs stabMs : Nat)
    (resps : List EfsResp) :
    ∀ (i : Nat) (l : List (Except String EfsResp)),
      (∀ q ∈ resps, efsAllAvailable q = false) →
      (∀ j, i ≤ j → j < i + resps.length → j * 10000 ≤ timeoutMs) →
      efsRunAux fsId timeoutMs stabMs i (resps.map Except.ok ++ l) =
        efsRunAux fsId timeoutMs stabMs (i + resps.length) l := by
  induction resps with
  | nil => intro i l _ _; simp
  | cons q resps ih =>
    intro i l hunsat htime
    have hq : efsAllAvailable q = false := hunsat q (by simp)
    have hti : i * 10000 ≤ timeoutMs := by
      refine htime i le_rfl ?_
      simp only [List.length_cons]
      omega
    have hstep : efsStep timeoutMs 0 (i * 10000) q = .again := by
      simp only [efsStep]
      rw [if_neg (by simp [hq]), if_neg (by omega)]
    simp only [List.map_cons, List.cons_append, efsRunAux]
    rw [hstep]
    dsimp only
    rw [show (List.map Except.ok resps).append l = List.map Except.ok resps ++ l
        from rfl]
    rw [ih (i + 1) l (fun q hq => hunsat q (by simp [hq]))
        (fun j h1 h2 => by
          refine htime j (by omega) ?_
          simp only [List.length_cons]
          omega)]
    congr 1
    simp only [List.length_cons]
    omega

/-- C6: in the EFS wait, once a poll satisfies the all-match predicate the
run probes no further (the result does not depend on any later probe
entries): it adds exactly the stabilization buffer to the elapsed time
(a zero buffer adds nothing, going directly to success) and returns the
`wait-for-` id, having issued exactly the polls up to and including the
satisfying one. -/
theorem c6_stabilization_then_done (fsId : String) (timeoutMs stabMs : Nat)
    (resps : List EfsResp) (rest : List (Except String EfsResp)) (resp : EfsResp)
    (hunsat : ∀ q ∈ resps, efsAllAvailable q = false)
    (htime : ∀ j, j < resps.length → j * 10000 ≤ timeoutMs)
    (hsat : efsAllAvailable resp = true) :
    efsRunAux fsId timeoutMs stabMs 0
        (resps.map Except.ok ++ Except.ok resp :: rest) =
      .ok ("wait-for-" ++ fsId) (resps.length + 1)
        (resps.length * 10000 + stabMs) := by
  rw [efsRunAux_skips fsId timeoutMs stabMs resps 0 (Except.ok resp :: rest)
      hunsat (fun j h1 h2 => htime j (by omega))]
  have hstep : efsStep timeoutMs 0 (resps.length * 10000) resp = .satisfied := by
    simp [efsStep, hsat]
  simp only [Nat.zero_add, efsRunAux]
  rw [hstep]

/-- C6 witness: one `creating` poll then an `available` poll, with the
source defaults 300 s timeout and 30 s stabilization, succeeds after two
probes at 10 s + 30 s elapsed. -/
theorem c6_stabilization_then_done_witness :
    efsRunAux "fs-0abc" 300000 30000 0
        [Except.ok ⟨some [⟨some "fsmt-1", some "creating"⟩]⟩,
         Except.ok ⟨some [⟨some "fsmt-1", some "available"⟩]⟩] =
      .ok ("wait-for-" ++ "fs-0abc") (1 + 1) (1 * 10000 + 30000) := by
  have h := c6_stabilization_then_done "fs-0abc" 300000 30000
    [⟨some [⟨some "fsmt-1", some "creating"⟩]⟩] []
    ⟨some [⟨some "fsmt-1", some "available"⟩]⟩
    (by intro q hq; simp at hq; subst hq; rfl)
    (by intro j hj; simp at hj; subst hj; omega)
    (by rfl)
  simpa using h

/-- C7: in both wait loops a failing probe aborts the run at once with
that error: the failing call is the last probe issued, nothing after it
in the probe trace is consumed (no retry, no further iteration), and the
elapsed time is that of the failing poll. -/
theorem c7_probe_error_propagates :
    (∀ (expected timeoutMs pollMs : Nat) (resps : List EniResp) (e : String)
       (rest : List (Except String EniResp)),
      (∀ q ∈ resps, (objEnisOf q).length < expected) →
      (∀ j, j < resps.length → j * pollMs ≤ timeoutMs) →
      eniRunAux expected timeoutMs pollMs 0
          (resps.map Except.ok ++ Except.error e :: rest) =
        .probeFailed e (resps.length + 1) (resps.length * pollMs)) ∧
    (∀ (fsId : String) (timeoutMs stabMs : Nat) (resps : List EfsResp)
       (e : String) (rest : List (Except String EfsResp)),
      (∀ q ∈ resps, efsAllAvailable q = false) →
      (∀ j, j < resps.length → j * 10000 ≤ timeoutMs) →
      efsRunAux fsId timeoutMs stabMs 0
          (resps.map Except.ok ++ Except.error e :: rest) =
        .probeFailed e (resps.length + 1) (resps.length * 10000)) := by
  constructor
  · intro expected timeoutMs pollMs resps e rest hunsat htime
    rw [eniRunAux_skips expected timeoutMs pollMs resps 0
        (Except.error e :: rest) hunsat (fun j h1 h2 => htime j (by omega))]
    simp [eniRunAux]
  · intro fsId timeoutMs stabMs resps e rest hunsat htime
    rw [efsRunAux_skips fsId timeoutMs stabMs resps 0
        (Except.error e :: rest) hunsat (fun j h1 h2 => htime j (by omega))]
    simp [efsRunAux]

/-- C7 witness: after one unsatisfying poll, a probe failure at the second
poll aborts both runs at once with that error, leaving later trace
entries unconsumed. -/
theorem c7_probe_error_propagates_witness :
    eniRunAux 3 300000 5000 0
        [Except.ok ⟨some []⟩, Except.error "throttled",
         Except.ok ⟨some []⟩] =
      .probeFailed "throttled" (1 + 1) (1 * 5000) ∧
    efsRunAux "fs-0abc" 300000 30000 0
        [Except.ok ⟨some [⟨some "fsmt-1", some "creating"⟩]⟩,
         Except.error "throttled"] =
      .probeFailed "throttled" (1 + 1) (1 * 10000) := by
  constructor
  · have h := c7_probe_error_propagates.1 3 300000 5000 [⟨some []⟩]
      "throttled" [Except.ok ⟨some []⟩]
      (by intro q hq; simp at hq; subst hq; decide)
      (by intro j hj; simp at hj; subst hj; omega)
    simpa using h
  · have h := c7_probe_error_propagates.2 "fs-0abc" 300000 30000
      [⟨some [⟨some "fsmt-1", some "creating"⟩]⟩] "throttled" []
      (by intro q hq; simp at hq; subst hq; rfl)
      (by intro j hj; simp at hj; subst hj; omega)
    simpa using h

/-- C9: both loops terminate against every probe trace: with the deadline
fixed at run start, a never-satisfying trace reaches the timeout error at
the first poll past the deadline, after exactly `timeout / poll + 2`
probes, with elapsed time strictly above the timeout but never exceeding
`timeout + pollInterval`; entries beyond that poll are never consumed. -/
theorem c9_timeout_bound :
    (∀ (expected timeoutMs pollMs : Nat) (resps : List EniResp),
      0 < pollMs →
      (∀ q ∈ resps, (objEnisOf q).length < expected) →
      timeoutMs / pollMs + 2 ≤ resps.length →
      ∃ m, eniRunAux expected timeoutMs pollMs 0 (resps.map Except.ok) =
          .timedOut m (timeoutMs / pollMs + 2)
            ((timeoutMs / pollMs + 1) * pollMs) ∧
        timeoutMs < (timeoutMs / pollMs + 1) * pollMs ∧
        (timeoutMs / pollMs + 1) * pollMs ≤ timeoutMs + pollMs) ∧
    (∀ (fsId : String) (timeoutMs stabMs : Nat) (resps : List EfsResp),
      (∀ q ∈ resps, efsAllAvailable q = false) →
      timeoutMs / 10000 + 2 ≤ resps.length →
      ∃ m, efsRunAux fsId timeoutMs stabMs 0 (resps.map Except.ok) =
          .timedOut m (timeoutMs / 10000 + 2)
            ((timeoutMs / 10000 + 1) * 10000) ∧
        timeoutMs < (timeoutMs / 10000 + 1) * 10000 ∧
        (timeoutMs / 10000 + 1) * 10000 ≤ timeoutMs + 10000) := by
  constructor
  · intro expected timeoutMs pollMs resps hp hunsat hlen
    have hdm := Nat.div_add_mod timeoutMs pollMs
    have hmod := Nat.mod_lt timeoutMs hp
    have hdml := Nat.div_mul_le_self timeoutMs pollMs
    have hover : timeoutMs < (timeoutMs / pollMs + 1) * pollMs := by
      calc timeoutMs = pollMs * (timeoutMs / pollMs) + timeoutMs % pollMs :=
            hdm.symm
        _ < pollMs * (timeoutMs / pollMs) + pollMs := by omega
        _ = (timeoutMs / pollMs + 1) * pollMs := by ring
    have hunder : (timeoutMs / pollMs + 1) * pollMs ≤ timeoutMs + pollMs := by
      calc (timeoutMs / pollMs + 1) * pollMs
            = timeoutMs / pollMs * pollMs + pollMs := by ring
        _ ≤ timeoutMs + pollMs := by omega
    have hsplit : resps = resps.take (timeoutMs / pollMs + 1) ++
        resps.drop (timeoutMs / pollMs + 1) := (List.take_append_drop _ _).symm
    have hlentake : (resps.take (timeoutMs / pollMs + 1)).length =
        timeoutMs / pollMs + 1 := by
      rw [List.length_take]
      omega
    cases hD : resps.drop (timeoutMs / pollMs + 1) with
    | nil =>
      have := List.length_drop (timeoutMs / pollMs + 1) resps
      rw [hD] at this
      simp at this
      omega
    | cons q rest =>
      have hqmem : q ∈ resps := by
        have : q ∈ resps.drop (timeoutMs / pollMs + 1) := by simp [hD]
        exact List.drop_subset _ _ this
      have hq : (objEnisOf q).length < expected := hunsat q hqmem
      rw [hsplit, hD, List.map_append]
      rw [eniRunAux_skips expected timeoutMs pollMs _ 0 _
          (fun q2 hq2 => hunsat q2 (List.take_subset _ _ hq2))
          (fun j h1 h2 => by
            rw [hlentake] at h2
            have hj : j ≤ timeoutMs / pollMs := by omega
            calc j * pollMs ≤ timeoutMs / pollMs * pollMs :=
                  Nat.mul_le_mul_right pollMs hj
              _ ≤ timeoutMs := hdml)]
      rw [Nat.zero_add, hlentake]
      have hstep : eniStep expected ((timeoutMs / pollMs + 1) * pollMs)
          timeoutMs q = .timedOut (eniTimeoutMsg (objEnisOf q) expected) := by
        simp only [eniStep]
        rw [if_neg (by omega), if_pos (by omega)]
      simp only [List.map_cons, eniRunAux]
      rw [hstep]
      exact ⟨eniTimeoutMsg (objEnisOf q) expected, rfl, hover, hunder⟩
  · intro fsId timeoutMs stabMs resps hunsat hlen
    have hover : timeoutMs < (timeoutMs / 10000 + 1) * 10000 := by omega
    have hunder : (timeoutMs / 10000 + 1) * 10000 ≤ timeoutMs + 10000 := by
      omega
    have hsplit : resps = resps.take (timeoutMs / 10000 + 1) ++
        resps.drop (timeoutMs / 10000 + 1) := (List.take_append_drop _ _).symm
    have hlentake : (resps.take (timeoutMs / 10000 + 1)).length =
        timeoutMs / 10000 + 1 := by
      rw [List.length_take]
      omega
    cases hD : resps.drop (timeoutMs / 10000 + 1) with
    | nil =>
      have := List.length_drop (timeoutMs / 10000 + 1) resps
      rw [hD] at this
      simp at this
      omega
    | cons q rest =>
      have hqmem : q ∈ resps := by
        have : q ∈ resps.drop (timeoutMs / 10000 + 1) := by simp [hD]
        exact List.drop_subset _ _ this
      have hq : efsAllAvailable q = false := hunsat q hqmem
      rw [hsplit, hD, List.map_append]
      rw [efsRunAux_skips fsId timeoutMs stabMs _ 0 _
          (fun q2 hq2 => hunsat q2 (List.take_subset _ _ hq2))
          (fun j h1 h2 => by
            rw [hlentake] at h2
            omega)]
      rw [Nat.zero_add, hlentake]
      have hstep : efsStep timeoutMs 0 ((timeoutMs / 10000 + 1) * 10000) q =
          .timedOut (efsTimeoutMsg q) := by
        simp only [efsStep]
        rw [if_neg (by simp [hq]), if_pos (by omega)]
      simp only [List.map_cons, efsRunAux]
      rw [hstep]
      exact ⟨efsTimeoutMsg q, rfl, hover, hunder⟩

/-- C9 witness: a 12 s deadline with 5 s polls and a trace of four empty
responses times out at the fourth probe, 15 s elapsed, within one poll of
the deadline; likewise a 25 s deadline with the fixed 10 s EFS polls. -/
theorem c9_timeout_bound_witness :
    (∃ m, eniRunAux 1 12000 5000 0
          ((List.replicate 4 (⟨some []⟩ : EniResp)).map Except.ok) =
        .timedOut m (12000 / 5000 + 2) ((12000 / 5000 + 1) * 5000) ∧
      12000 < (12000 / 5000 + 1) * 5000 ∧
      (12000 / 5000 + 1) * 5000 ≤ 12000 + 5000) ∧
    (∃ m, efsRunAux "fs-0abc" 25000 0 0
          ((List.replicate 4 (⟨none⟩ : EfsResp)).map Except.ok) =
        .timedOut m (25000 / 10000 + 2) ((25000 / 10000 + 1) * 10000) ∧
      25000 < (25000 / 10000 + 1) * 10000 ∧
      (25000 / 10000 + 1) * 10000 ≤ 25000 + 10000) := by
  constructor
  · exact c9_timeout_bound.1 1 12000 5000 (List.replicate 4 ⟨some []⟩)
      (by omega)
      (by intro q hq; rw [List.eq_of_mem_replicate hq]; decide)
      (by decide)
  · exact c9_timeout_bound.2 "fs-0abc" 25000 0 (List.replicate 4 ⟨none⟩)
      (by intro q hq; rw [List.eq_of_mem_replicate hq]; rfl)
      (by decide)

/-- C2 counterexample: with subnets declared in the order
`[subnet-a, subnet-b]`, a probe response listing the subnet-b interface
first yields the success projection `[eni-b, eni-a]` — the response's
natural order — not the subnet-declared order `[eni-a, eni-b]`. -/
theorem c2_counterexample :
    eniRun ["subnet-a", "subnet-b"]
        [Except.ok ⟨some [⟨some "subnet-b", some "eni-b"⟩,
                          ⟨some "subnet-a", some "eni-a"⟩]⟩] =
      .ok "eni-b,eni-a" ["eni-b", "eni-a"] 1 0 ∧
    ["eni-b", "eni-a"] ≠ ["eni-a", "eni-b"] := by
  constructor
  · rfl
  · decide

/-- C2 amended: whenever the ENI run succeeds, the returned interface ids
are the values of the ObservedState map of the succeeding probe response,
one per distinct subnet key, listed in map insertion order — the order
subnets are first discovered in the response (keys form a duplicate-free
subsequence of the response's subnet sequence), not the subnet-declared
order of the inputs — and the resource id is their comma join. -/
theorem c2_projection_order :
    ∀ (expected timeoutMs pollMs i : Nat)
      (probes : List (Except String EniResp)) (id1 : String)
      (ids : List String) (n el : Nat),
      eniRunAux expected timeoutMs pollMs i probes = .ok id1 ids n el →
      ∃ resp, Except.ok resp ∈ probes ∧
        ids = (objEnisOf resp).map Prod.snd ∧
        id1 = eniResourceId ids ∧
        List.Sublist ((objEnisOf resp).map Prod.fst)
          ((enisOf resp).filterMap eniKeyOf) ∧
        ((objEnisOf resp).map Prod.fst).Nodup := by
  intro expected timeoutMs pollMs i probes
  induction probes generalizing i with
  | nil =>
    intro id1 ids n el h
    simp [eniRunAux] at h
  | cons r rest ih =>
    intro id1 ids n el h
    simp only [eniRunAux] at h
    cases r with
    | error e => simp at h
    | ok resp =>
      dsimp only at h
      cases hstep : eniStep expected (i * pollMs) timeoutMs resp with
      | success id2 ids2 =>
        rw [hstep] at h
        dsimp only at h
        injection h with h1 h2 h3 h4
        have hsucc : id2 = eniResourceId ((objEnisOf resp).map Prod.snd) ∧
            ids2 = (objEnisOf resp).map Prod.snd := by
          simp only [eniStep] at hstep
          by_cases hge : (objEnisOf resp).length ≥ expected
          · rw [if_pos hge] at hstep
            injection hstep with g1 g2
            exact ⟨g1.symm, g2.symm⟩
          · rw [if_neg hge] at hstep
            split at hstep <;> exact absurd hstep (by simp)
        obtain ⟨t, hts, hsub, _⟩ :=
          objEnisAux_append_structure (enisOf resp) []
        rw [List.nil_append] at hts
        refine ⟨resp, by simp, ?_, ?_, ?_, ?_⟩
        · rw [← h2, hsucc.2]
        · rw [← h1, ← h2, hsucc.1, hsucc.2]
        · rw [objEnisOf, hts]
          exact hsub
        · exact objEnisAux_nodup (enisOf resp) [] (by simp)
      | timedOut m =>
        rw [hstep] at h
        dsimp only at h
        exact absurd h (by simp)
      | again =>
        rw [hstep] at h
        dsimp only at h
        obtain ⟨resp2, hmem, hrest⟩ := ih (i + 1) id1 ids n el h
        exact ⟨resp2, by simp [hmem], hrest⟩

/-- C2 amended, witness: a run succeeding on a single-entry response
returns that response's observed values in insertion order. -/
theorem c2_projection_order_witness :
    ∃ resp, Except.ok resp ∈
        ([Except.ok ⟨some [⟨some "subnet-a", some "eni-a"⟩]⟩] :
          List (Except String EniResp)) ∧
      ["eni-a"] = (objEnisOf resp).map Prod.snd ∧
      "eni-a" = eniResourceId ["eni-a"] ∧
      List.Sublist ((objEnisOf resp).map Prod.fst)
        ((enisOf resp).filterMap eniKeyOf) ∧
      ((objEnisOf resp).map Prod.fst).Nodup :=
  c2_projection_order 1 300000 5000 0
    [Except.ok ⟨some [⟨some "subnet-a", some "eni-a"⟩]⟩]
    "eni-a" ["eni-a"] 1 0 (by rfl)

/- Helper lemmas for the split-after-join round trip. -/

theorem jsSplitChars_append (sep : Char) (x r : List Char) (h : sep ∉ x) :
    jsSplitChars sep (x ++ sep :: r) = x :: jsSplitChars sep r := by
  induction x with
  | nil => simp [jsSplitChars]
  | cons c x ih =>
    simp only [List.mem_cons, not_or] at h
    simp only [List.cons_append, jsSplitChars, List.append_eq]
    rw [if_neg (fun hc => h.1 hc.symm), ih h.2]

theorem jsSplitChars_no_sep (sep : Char) (x : List Char) (h : sep ∉ x) :
    jsSplitChars sep x = [x] := by
  induction x with
  | nil => rfl
  | cons c x ih =>
    simp only [List.mem_cons, not_or] at h
    simp only [jsSplitChars]
    rw [if_neg (fun hc => h.1 hc.symm), ih h.2]

theorem jsSplitChars_joinChars (sep : Char) (l : List (List Char))
    (hne : l ≠ []) (h : ∀ s ∈ l, sep ∉ s) :
    jsSplitChars sep (joinChars sep l) = l := by
  induction l with
  | nil => exact absurd rfl hne
  | cons x l2 ih =>
    cases l2 with
    | nil => exact jsSplitChars_no_sep sep x (h x (by simp))
    | cons y l3 =>
      show jsSplitChars sep (x ++ sep :: joinChars sep (y :: l3)) = _
      rw [jsSplitChars_append sep x _ (h x (by simp))]
      rw [ih (by simp) (fun s hs => h s (by simp [hs]))]

theorem map_eq_self_of_forall {α : Type} (f : α → α) :
    ∀ l : List α, (∀ x ∈ l, f x = x) → l.map f = l := by
  intro l
  induction l with
  | nil => intro _; rfl
  | cons x l ih =>
    intro h
    simp only [List.map_cons]
    rw [h x (by simp), ih (fun y hy => h y (by simp [hy]))]

/-- C10: the public `eniIds` output is recovered from the comma-joined
resource id by split and trim; for every non-empty id list whose entries
contain no comma and carry no surrounding whitespace, split-after-join
returns exactly the original list, so the exposed output equals the
provider's projected list. -/
theorem c10_split_join_roundtrip (ids : List String) (hne : ids ≠ [])
    (h : ∀ s ∈ ids, ',' ∉ s.data ∧ jsTrimChars s.data = s.data) :
    publicEniIds (eniResourceId ids) = ids := by
  unfold publicEniIds eniResourceId
  rw [show (String.mk (joinChars ',' (ids.map String.data))).data =
      joinChars ',' (ids.map String.data) from rfl]
  rw [jsSplitChars_joinChars ',' (ids.map String.data)
      (by simpa using hne)
      (by
        intro s hs
        simp only [List.mem_map] at hs
        obtain ⟨t, ht, hts⟩ := hs
        rw [← hts]
        exact (h t ht).1)]
  rw [List.map_map]
  apply map_eq_self_of_forall
  intro s hs
  rcases s with ⟨d⟩
  exact congrArg String.mk ((h ⟨d⟩ hs).2)

/-- C10 witness: two plain interface ids survive the round trip. -/
theorem c10_split_join_roundtrip_witness :
    publicEniIds (eniResourceId ["eni-0aaa", "eni-0bbb"]) =
      ["eni-0aaa", "eni-0bbb"] :=
  c10_split_join_roundtrip ["eni-0aaa", "eni-0bbb"] (by decide)
    (by
      intro s hs
      simp only [List.mem_cons, List.not_mem_nil, or_false] at hs
      rcases hs with hs | hs <;> subst hs <;> exact ⟨by decide, by decide⟩)
